import Mathlib

/-!
Shallow embedding of the promptgen template generator (src/lib.rs) and
verification of its specification.

The Rust source converts a template containing color directives
`{fg,bg:content}` into a string of ANSI SGR escape sequences, optionally
wrapped in shell-specific zero-width markers.  Strings are modelled as
`List Char`; `u8` values are `Nat` with the 0–255 range enforced where the
source enforces it (`u8::from_str`); fallible functions return `Except`.
-/

deriving instance DecidableEq for Except

namespace Promptgen

/-- Shell mode enum from the source (`Shell`): `Any`, `Zsh`, `Bash`. -/
inductive Shell
  | any
  | zsh
  | bash
deriving DecidableEq

/-- Color pair from the source (`Section`): foreground and background, each a `u8`. -/
structure Section where
  fg : Nat
  bg : Nat
deriving DecidableEq

/-- Escape directive from the source (`Escape`). -/
inductive Escape
  | foreground (color : Nat)
  | background (color : Nat)
  | reset
deriving DecidableEq

/-- The `OPEN_BRACE` constant of the source (the character left brace). -/
def OPEN_BRACE : Char := Char.ofNat 123

/-- The `CLOSE_BRACE` constant of the source (the character right brace). -/
def CLOSE_BRACE : Char := Char.ofNat 125

/-- The escape character emitted by `push_escape_code` (start of `"\x1b["`). -/
def ESC : Char := '\x1b'

/-- The literal sentinel character pushed at an opening boundary (line 116 of
the source, U+E0B6). -/
def SENTINEL_OPEN : Char := Char.ofNat 0xE0B6

/-- The literal sentinel character pushed at a closing boundary (line 130 of
the source, U+E0B4). -/
def SENTINEL_CLOSE : Char := Char.ofNat 0xE0B4

/-- Decimal digit character, `48 + d` in code points. -/
def digitChar (d : Nat) : Char := Char.ofNat (48 + d)

/-- Decimal rendering of a natural number (what Rust's `format!("{}", color)`
produces for a `u8`), written with explicit fuel so that it is structurally
recursive and kernel-computable. -/
def natCharsAux : Nat → Nat → List Char
  | 0, _ => []
  | fuel + 1, n => if n < 10 then [digitChar n] else natCharsAux fuel (n / 10) ++ [digitChar (n % 10)]

/-- Decimal rendering of `n` (used for the `{}` of `format!("38;5;{}", color)`). -/
def natChars (n : Nat) : List Char := natCharsAux (n + 1) n

/-- One step of Rust's `u8::from_str` digit loop: fold the digits left to
right, reporting an invalid digit or positive overflow with the message of
the corresponding `ParseIntError`. -/
def parseU8Digits : List Char → Nat → Except String Nat
  | [], acc => .ok acc
  | c :: rest, acc =>
    if c.isDigit then
      let v := acc * 10 + (c.toNat - 48)
      if v > 255 then .error "number too large to fit in target type"
      else parseU8Digits rest v
    else .error "invalid digit found in string"

/-- Rust's `str::parse::<u8>`: empty input is rejected, a leading `+` is
allowed when followed by digits, a leading `-` is an invalid digit for an
unsigned type, then the digit loop runs.  Error strings are the `Display`
messages of `ParseIntError`. -/
def parseU8 (cs : List Char) : Except String Nat :=
  match cs with
  | [] => .error "cannot parse integer from empty string"
  | ['+'] => .error "invalid digit found in string"
  | '-' :: _ => .error "invalid digit found in string"
  | '+' :: rest => parseU8Digits rest 0
  | cs => parseU8Digits cs 0

/-- Rust's `str::split(',')`: splits on every comma; the empty string yields
one empty field. -/
def splitComma : List Char → List (List Char)
  | [] => [[]]
  | ',' :: rest => [] :: splitComma rest
  | c :: rest =>
    match splitComma rest with
    | [] => [[c]]
    | f :: fs => (c :: f) :: fs

/-- The source's `read_meta`: consume characters up to and including the next
`:` (Rust `take_while` also consumes the failing element), split what was
collected on commas, require exactly two fields, and parse each as a `u8`.
The pair's second component is the part of the input left unconsumed; Rust
advances the shared iterator the same way whether or not parsing succeeds. -/
def readMeta (cs : List Char) : Except String Section × List Char :=
  let buffer := cs.takeWhile (fun c => c != ':')
  let rest := (cs.dropWhile (fun c => c != ':')).drop 1
  match splitComma buffer with
  | [fgChars, bgChars] =>
    match parseU8 fgChars with
    | .error e => (.error ("Invalid fg: " ++ e), rest)
    | .ok fg =>
      match parseU8 bgChars with
      | .error e => (.error ("Invalid bg: " ++ e), rest)
      | .ok bg => (.ok ⟨fg, bg⟩, rest)
  | _ => (.error "Both fg and bg should be specified", rest)

/-- The source's `push_escape_code`: format the SGR body, prepend the shell
open marker, append `ESC [ body m`, append the shell close marker. -/
def pushEscapeCode (buffer : List Char) (escape : Escape) (shell : Shell) : List Char :=
  let escape :=
    match escape with
    | .foreground color => ['3', '8', ';', '5', ';'] ++ natChars color
    | .background color => ['4', '8', ';', '5', ';'] ++ natChars color
    | .reset => ['0']
  let buffer :=
    match shell with
    | .zsh => buffer ++ ['%', OPEN_BRACE]
    | .bash => buffer ++ ['\\', '[']
    | .any => buffer
  let buffer := buffer ++ [ESC, '['] ++ escape ++ ['m']
  match shell with
  | .zsh => buffer ++ ['%', CLOSE_BRACE]
  | .bash => buffer ++ ['\\', ']']
  | .any => buffer

/-- The source's `push_brace`: boundary emission when crossing a brace run.
`current` is the section that was active before the boundary, `next` the
stack top after it. -/
def pushBrace (buffer : List Char) (brace : Char) (current next : Option Section) (shell : Shell) : List Char :=
  if brace = OPEN_BRACE then
    match next with
    | some nxt =>
      let buffer := pushEscapeCode buffer (.foreground nxt.bg) shell
      let buffer := buffer ++ [SENTINEL_OPEN]
      let buffer := pushEscapeCode buffer (.foreground nxt.fg) shell
      pushEscapeCode buffer (.background nxt.bg) shell
    | none => buffer
  else if brace = CLOSE_BRACE then
    let escape : Escape :=
      match next with
      | some nxt => .background nxt.bg
      | none => .reset
    let buffer := pushEscapeCode buffer escape shell
    let buffer :=
      match current with
      | some cur => pushEscapeCode buffer (.foreground cur.bg) shell ++ [SENTINEL_CLOSE]
      | none => buffer
    let escape2 : Escape :=
      match next with
      | some nxt => .foreground nxt.fg
      | none => .reset
    pushEscapeCode buffer escape2 shell
  else buffer

/-- The scan loop of the source's `generate`: walk the characters one at a
time; if a brace is pending and the new character is a different brace kind,
flush a boundary via `pushBrace` and refresh the active section; then handle
the character (`{` reads metadata and pushes, `}` pops, anything else is
copied); at end of input flush a still-pending brace. -/
def generateAux (shell : Shell) (cs buffer : List Char) (sections : List Section)
    (activeSection : Option Section) (lastBrace : Option Char) : Except String (List Char) :=
  match cs with
  | [] =>
    match lastBrace with
    | some brace => .ok (pushBrace buffer brace activeSection sections.getLast? shell)
    | none => .ok buffer
  | c :: rest =>
    let flushed :=
      match lastBrace with
      | some brace =>
        if brace ≠ c then
          (pushBrace buffer brace activeSection sections.getLast? shell, sections.getLast?)
        else (buffer, activeSection)
      | none => (buffer, activeSection)
    if c = OPEN_BRACE then
      match (readMeta rest).1 with
      | .error e => .error e
      | .ok sec =>
        generateAux shell (readMeta rest).2 flushed.1 (sections ++ [sec]) flushed.2 (some OPEN_BRACE)
    else if c = CLOSE_BRACE then
      generateAux shell rest flushed.1 sections.dropLast flushed.2 (some CLOSE_BRACE)
    else
      generateAux shell rest (flushed.1 ++ [c]) sections flushed.2 none
termination_by cs.length
decreasing_by
  · have h2 : ((rest.dropWhile (fun c => c != ':')).drop 1).length ≤ rest.length := by
      have ha : (rest.dropWhile (fun c => c != ':')).length ≤ rest.length :=
        (List.dropWhile_sublist _).length_le
      have hb : ((rest.dropWhile (fun c => c != ':')).drop 1).length ≤
          (rest.dropWhile (fun c => c != ':')).length := (List.drop_sublist _ _).length_le
      omega
    have h3 : (readMeta rest).2.length ≤ rest.length := by
      unfold readMeta
      dsimp only
      split
      · split
        · exact h2
        · split
          · exact h2
          · exact h2
      · exact h2
    simp only [List.length_cons]
    omega
  · simp
  · simp

/-- The source's `generate`: run the scan loop from the empty buffer, the
empty section stack, no active section and no pending brace. -/
def generate (template : List Char) (shell : Shell) : Except String (List Char) :=
  generateAux shell template [] [] none none

/-- The bare SGR escape sequence for an escape directive under `Any` mode —
`ESC [ body m` with the body of `push_escape_code`. -/
def sgr (escape : Escape) : List Char :=
  let body :=
    match escape with
    | .foreground color => ['3', '8', ';', '5', ';'] ++ natChars color
    | .background color => ['4', '8', ';', '5', ';'] ++ natChars color
    | .reset => ['0']
  [ESC, '['] ++ body ++ ['m']

/-- The opening wrapper marker a shell mode puts in front of every escape
sequence (`%` + left brace for zsh, backslash + `[` for bash, nothing otherwise). -/
def shellOpenMarker : Shell → List Char
  | .zsh => ['%', OPEN_BRACE]
  | .bash => ['\\', '[']
  | .any => []

/-- The closing wrapper marker a shell mode puts after every escape sequence. -/
def shellCloseMarker : Shell → List Char
  | .zsh => ['%', CLOSE_BRACE]
  | .bash => ['\\', ']']
  | .any => []

/-- Spec-side textual transform of §8: wrap every individual SGR escape
sequence (a run `ESC ... m`) of a string in the markers `op`/`cl`, leaving
everything else untouched.  An unterminated trailing escape is left alone. -/
def wrapEscapes (op cl : List Char) : List Char → List Char
  | [] => []
  | c :: rest =>
    if c = ESC then
      match h : rest.dropWhile (fun x => x != 'm') with
      | [] => c :: rest
      | _ :: tail => op ++ (c :: rest.takeWhile (fun x => x != 'm')) ++ ['m'] ++ cl ++ wrapEscapes op cl tail
    else c :: wrapEscapes op cl rest
termination_by cs => cs.length
decreasing_by
  · have h1 : (rest.dropWhile (fun x => x != 'm')).length ≤ rest.length :=
      (List.dropWhile_sublist _).length_le
    have h2 : (rest.dropWhile (fun x => x != 'm')).length = tail.length + 1 := by
      rw [h]; simp
    simp only [List.length_cons]
    omega
  · simp

/-- Error projection of a generation result. -/
def errOf : Except String (List Char) → Option String
  | .error e => some e
  | .ok _ => none

/-- Success of every metadata parse in a template: runs the scan skeleton,
invoking `readMeta` at each `{` exactly as `generate` does, but ignores
buffers, the stack, and closing braces entirely. -/
def metaOk (cs : List Char) : Bool :=
  match cs with
  | [] => true
  | c :: rest =>
    if c = OPEN_BRACE then
      match (readMeta rest).1 with
      | .ok _ => metaOk (readMeta rest).2
      | .error _ => false
    else metaOk rest
termination_by cs.length
decreasing_by
  · have h2 : ((rest.dropWhile (fun c => c != ':')).drop 1).length ≤ rest.length := by
      have ha : (rest.dropWhile (fun c => c != ':')).length ≤ rest.length :=
        (List.dropWhile_sublist _).length_le
      have hb : ((rest.dropWhile (fun c => c != ':')).drop 1).length ≤
          (rest.dropWhile (fun c => c != ':')).length := (List.drop_sublist _ _).length_le
      omega
    have h3 : (readMeta rest).2.length ≤ rest.length := by
      unfold readMeta
      dsimp only
      split
      · split
        · exact h2
        · split
          · exact h2
          · exact h2
      · exact h2
    simp only [List.length_cons]
    omega
  · simp

/-- Scan events of the loop in `generate` (lines 50–63 of the source): each
processed character either pushes a freshly parsed section, pops, or is plain
text.  The trace stops at a metadata error, as the scan does. -/
inductive ScanEvent
  | push (s : Section)
  | pop
  | text
deriving DecidableEq

/-- Event trace of the scan over a template. -/
def scanEvents (cs : List Char) : List ScanEvent :=
  match cs with
  | [] => []
  | c :: rest =>
    if c = OPEN_BRACE then
      match (readMeta rest).1 with
      | .ok sec => .push sec :: scanEvents (readMeta rest).2
      | .error _ => []
    else if c = CLOSE_BRACE then .pop :: scanEvents rest
    else .text :: scanEvents rest
termination_by cs.length
decreasing_by
  · have h2 : ((rest.dropWhile (fun c => c != ':')).drop 1).length ≤ rest.length := by
      have ha : (rest.dropWhile (fun c => c != ':')).length ≤ rest.length :=
        (List.dropWhile_sublist _).length_le
      have hb : ((rest.dropWhile (fun c => c != ':')).drop 1).length ≤
          (rest.dropWhile (fun c => c != ':')).length := (List.drop_sublist _ _).length_le
      omega
    have h3 : (readMeta rest).2.length ≤ rest.length := by
      unfold readMeta
      dsimp only
      split
      · split
        · exact h2
        · split
          · exact h2
          · exact h2
      · exact h2
    simp only [List.length_cons]
    omega
  · simp
  · simp

/-- Stack update of one scan event, exactly the source's `sections.push` /
`sections.pop` discipline (`Vec` top is the list's last element; popping an
empty stack is a no-op). -/
def stackStep (stack : List Section) : ScanEvent → List Section
  | .push s => stack ++ [s]
  | .pop => stack.dropLast
  | .text => stack

/-- Section stack after a sequence of scan events, starting empty. -/
def stackAfter (evs : List ScanEvent) : List Section := evs.foldl stackStep []

/-- Independent count of unmatched opening braces: `+1` per push, `-1` per
pop that has something to match (truncated subtraction), unchanged by text. -/
def unmatchedCount (evs : List ScanEvent) : Nat :=
  evs.foldl (fun d e => match e with | .push _ => d + 1 | .pop => d - 1 | .text => d) 0

/-- Right-to-left search for the innermost unmatched open: walking the events
backwards, `k` counts the pops still waiting for their matching push. -/
def innermostAux : List ScanEvent → Nat → Option Section
  | [], _ => none
  | .pop :: rest, k => innermostAux rest (k + 1)
  | .push s :: _, 0 => some s
  | .push _ :: rest, k + 1 => innermostAux rest k
  | .text :: rest, k => innermostAux rest k

/-- The section of the innermost unmatched `{` among a list of scan events. -/
def innermostUnmatched (evs : List ScanEvent) : Option Section :=
  innermostAux evs.reverse 0

/-- Section stacks of the scan, one entry per loop state: the stack before
each processed character plus the final stack, mirroring exactly the stack
updates at lines 50–63 of the source (truncated at a metadata error, where
the scan aborts). -/
def stackTrace (cs : List Char) (stack : List Section) : List (List Section) :=
  match cs with
  | [] => [stack]
  | c :: rest =>
    if c = OPEN_BRACE then
      match (readMeta rest).1 with
      | .ok sec => stack :: stackTrace (readMeta rest).2 (stack ++ [sec])
      | .error _ => [stack]
    else if c = CLOSE_BRACE then stack :: stackTrace rest stack.dropLast
    else stack :: stackTrace rest stack
termination_by cs.length
decreasing_by
  · have h2 : ((rest.dropWhile (fun c => c != ':')).drop 1).length ≤ rest.length := by
      have ha : (rest.dropWhile (fun c => c != ':')).length ≤ rest.length :=
        (List.dropWhile_sublist _).length_le
      have hb : ((rest.dropWhile (fun c => c != ':')).drop 1).length ≤
          (rest.dropWhile (fun c => c != ':')).length := (List.drop_sublist _ _).length_le
      omega
    have h3 : (readMeta rest).2.length ≤ rest.length := by
      unfold readMeta
      dsimp only
      split
      · split
        · exact h2
        · split
          · exact h2
          · exact h2
      · exact h2
    simp only [List.length_cons]
    omega
  · simp
  · simp

/-- Closure of a buffer under the wrapping transform: appending anything
distributes.  Holds for buffers made of complete escape sequences and
escape-free text. -/
def EscClosed (op cl buf : List Char) : Prop :=
  ∀ x, wrapEscapes op cl (buf ++ x) = wrapEscapes op cl buf ++ wrapEscapes op cl x

/-- The output C1 claims for a single section `{fg,bg:text}` when both
sentinel slots hold one and the same character `c`. -/
def claimedSingleSection (c : Char) (fg bg : Nat) (text : List Char) : List Char :=
  sgr (.foreground bg) ++ [c] ++ sgr (.foreground fg) ++ sgr (.background bg) ++ text ++
    sgr .reset ++ sgr (.foreground bg) ++ [c] ++ sgr .reset

/-! ## Basic facts about characters and digits -/

theorem open_ne_close : OPEN_BRACE ≠ CLOSE_BRACE := by decide

/-- Character facts for decimal digits: a digit is none of the syntactically
meaningful characters of the template language or of SGR sequences, and its
code point recovers its value. -/
theorem digitChar_facts (d : Nat) (h : d < 10) :
    (digitChar d).isDigit = true ∧ (digitChar d).toNat = 48 + d ∧
    digitChar d ≠ ':' ∧ digitChar d ≠ ',' ∧ digitChar d ≠ OPEN_BRACE ∧
    digitChar d ≠ CLOSE_BRACE ∧ digitChar d ≠ 'm' ∧ digitChar d ≠ ESC ∧
    digitChar d ≠ '+' ∧ digitChar d ≠ '-' := by
  interval_cases d <;> exact ⟨by decide, by decide, by decide, by decide, by decide,
    by decide, by decide, by decide, by decide, by decide⟩

/-- Every character of the decimal rendering is a decimal digit character. -/
theorem mem_natCharsAux (fuel n : Nat) (c : Char) (h : c ∈ natCharsAux fuel n) :
    ∃ d, d < 10 ∧ c = digitChar d := by
  induction fuel generalizing n with
  | zero => simp [natCharsAux] at h
  | succ f ih =>
    unfold natCharsAux at h
    by_cases hn : n < 10
    · simp [hn] at h
      exact ⟨n, hn, h⟩
    · simp [hn] at h
      rcases h with h | h
      · exact ih _ h
      · exact ⟨n % 10, Nat.mod_lt _ (by norm_num), h⟩

/-- Every character of `natChars n` is a decimal digit character. -/
theorem mem_natChars (n : Nat) (c : Char) (h : c ∈ natChars n) :
    ∃ d, d < 10 ∧ c = digitChar d :=
  mem_natCharsAux _ _ _ h

set_option maxRecDepth 4000 in
/-- Parsing round trip: every value 0–255, rendered in decimal, parses back
to itself under the embedded `u8` parser. -/
theorem parseU8_natChars : ∀ n < 256, parseU8 (natChars n) = .ok n := by decide

/-! ## Splitting and scanning of metadata text -/

theorem takeWhile_colon_append (m rest : List Char) (h : ∀ c ∈ m, c ≠ ':') :
    (m ++ ':' :: rest).takeWhile (fun c => c != ':') = m := by
  induction m with
  | nil => simp
  | cons c cs ih =>
    have hc : c ≠ ':' := h c (by simp)
    simp only [List.cons_append, List.takeWhile_cons]
    simp only [bne_iff_ne, ne_eq, hc, not_false_eq_true, if_true]
    rw [ih (fun x hx => h x (by simp [hx]))]

theorem dropWhile_colon_append (m rest : List Char) (h : ∀ c ∈ m, c ≠ ':') :
    (m ++ ':' :: rest).dropWhile (fun c => c != ':') = ':' :: rest := by
  induction m with
  | nil => simp
  | cons c cs ih =>
    have hc : c ≠ ':' := h c (by simp)
    simp only [List.cons_append, List.dropWhile_cons]
    simp only [bne_iff_ne, ne_eq, hc, not_false_eq_true, if_true]
    exact ih (fun x hx => h x (by simp [hx]))

theorem takeWhile_no_colon (m : List Char) (h : ∀ c ∈ m, c ≠ ':') :
    m.takeWhile (fun c => c != ':') = m := by
  induction m with
  | nil => simp
  | cons c cs ih =>
    have hc : c ≠ ':' := h c (by simp)
    simp only [List.takeWhile_cons]
    simp only [bne_iff_ne, ne_eq, hc, not_false_eq_true, if_true]
    rw [ih (fun x hx => h x (by simp [hx]))]

theorem dropWhile_no_colon (m : List Char) (h : ∀ c ∈ m, c ≠ ':') :
    m.dropWhile (fun c => c != ':') = [] := by
  induction m with
  | nil => simp
  | cons c cs ih =>
    have hc : c ≠ ':' := h c (by simp)
    simp only [List.dropWhile_cons]
    simp only [bne_iff_ne, ne_eq, hc, not_false_eq_true, if_true]
    exact ih (fun x hx => h x (by simp [hx]))

theorem splitComma_no_comma (m : List Char) (h : ∀ c ∈ m, c ≠ ',') :
    splitComma m = [m] := by
  induction m with
  | nil => rfl
  | cons c cs ih =>
    have hc : c ≠ ',' := h c (by simp)
    rw [splitComma]
    · rw [ih (fun x hx => h x (by simp [hx]))]
    · exact hc

theorem splitComma_append (s1 s2 : List Char) (h : ∀ c ∈ s1, c ≠ ',') :
    splitComma (s1 ++ ',' :: s2) = s1 :: splitComma s2 := by
  induction s1 with
  | nil => simp [splitComma]
  | cons c cs ih =>
    have hc : c ≠ ',' := h c (by simp)
    simp only [List.cons_append]
    rw [splitComma]
    · rw [ih (fun x hx => h x (by simp [hx]))]
    · exact hc

/-! ## Characterizations of readMeta -/

/-- Behaviour of `readMeta` on metadata with exactly two comma-separated
fields followed by the `:` terminator. -/
theorem readMeta_fields (s1 s2 rest : List Char)
    (h1 : ∀ c ∈ s1, c ≠ ':' ∧ c ≠ ',') (h2 : ∀ c ∈ s2, c ≠ ':' ∧ c ≠ ',') :
    readMeta (s1 ++ (',' :: (s2 ++ (':' :: rest)))) =
      ((match parseU8 s1 with
        | .error e => .error ("Invalid fg: " ++ e)
        | .ok fg =>
          match parseU8 s2 with
          | .error e => .error ("Invalid bg: " ++ e)
          | .ok bg => .ok ⟨fg, bg⟩), rest) := by
  have hm : ∀ c ∈ s1 ++ ',' :: s2, c ≠ ':' := by
    intro c hc
    rcases List.mem_append.mp hc with hc | hc
    · exact (h1 c hc).1
    · rcases List.mem_cons.mp hc with hc | hc
      · subst hc; decide
      · exact (h2 c hc).1
  have e0 : s1 ++ (',' :: (s2 ++ (':' :: rest))) = (s1 ++ ',' :: s2) ++ ':' :: rest := by simp
  have e1 : (s1 ++ (',' :: (s2 ++ (':' :: rest)))).takeWhile (fun c => c != ':') =
      s1 ++ ',' :: s2 := by
    rw [e0, takeWhile_colon_append _ _ hm]
  have e2 : (s1 ++ (',' :: (s2 ++ (':' :: rest)))).dropWhile (fun c => c != ':') =
      ':' :: rest := by
    rw [e0, dropWhile_colon_append _ _ hm]
  have e3 : splitComma (s1 ++ ',' :: s2) = [s1, s2] := by
    rw [splitComma_append _ _ (fun c hc => (h1 c hc).2),
      splitComma_no_comma _ (fun c hc => (h2 c hc).2)]
  unfold readMeta
  simp only [e1, e2, e3, List.drop_succ_cons, List.drop_zero]
  cases hp1 : parseU8 s1 with
  | error e => simp
  | ok fg =>
    cases hp2 : parseU8 s2 with
    | error e2 => simp
    | ok bg => simp

/-- Behaviour of `readMeta` when the comma split of terminated metadata does
not have exactly two fields. -/
theorem readMeta_badCount (meta rest : List Char)
    (hc : ∀ c ∈ meta, c ≠ ':') (hn : (splitComma meta).length ≠ 2) :
    readMeta (meta ++ ':' :: rest) = (.error "Both fg and bg should be specified", rest) := by
  unfold readMeta
  rw [takeWhile_colon_append _ _ hc, dropWhile_colon_append _ _ hc]
  rcases hsp : splitComma meta with _ | ⟨f, _ | ⟨g, _ | ⟨k, l⟩⟩⟩ <;>
    simp [hsp] at hn ⊢

/-- Behaviour of `readMeta` when the input ends before any `:` terminator
and the comma split mismatches: same error, nothing left to consume. -/
theorem readMeta_unterminated (meta : List Char)
    (hc : ∀ c ∈ meta, c ≠ ':') (hn : (splitComma meta).length ≠ 2) :
    readMeta meta = (.error "Both fg and bg should be specified", []) := by
  unfold readMeta
  rw [takeWhile_no_colon _ hc, dropWhile_no_colon _ hc]
  rcases hsp : splitComma meta with _ | ⟨f, _ | ⟨g, _ | ⟨k, l⟩⟩⟩ <;>
    simp [hsp] at hn ⊢

/-! ## Step lemmas for the scan loop -/

theorem genAux_nil_none (sh : Shell) (buf : List Char) (σ : List Section) (a : Option Section) :
    generateAux sh [] buf σ a none = .ok buf := by
  unfold generateAux; rfl

theorem genAux_nil_some (sh : Shell) (buf : List Char) (σ : List Section) (a : Option Section)
    (b : Char) :
    generateAux sh [] buf σ a (some b) = .ok (pushBrace buf b a σ.getLast? sh) := by
  unfold generateAux; rfl

/-- A pending brace of the same kind as the next character causes no flush. -/
theorem genAux_noflush (sh : Shell) (c : Char) (cs buf : List Char) (σ : List Section)
    (a : Option Section) :
    generateAux sh (c :: cs) buf σ a (some c) = generateAux sh (c :: cs) buf σ a none := by
  conv => lhs; unfold generateAux
  conv => rhs; unfold generateAux
  simp

/-- A pending brace of a different kind flushes a boundary and refreshes the
active section before the character is handled. -/
theorem genAux_flush (sh : Shell) (b c : Char) (cs buf : List Char) (σ : List Section)
    (a : Option Section) (h : b ≠ c) :
    generateAux sh (c :: cs) buf σ a (some b) =
      generateAux sh (c :: cs) (pushBrace buf b a σ.getLast? sh) σ σ.getLast? none := by
  conv => lhs; unfold generateAux
  conv => rhs; unfold generateAux
  simp [h]

/-- Handling an opening brace with no pending flush: read the metadata, abort
on error, push on success. -/
theorem genAux_open (sh : Shell) (cs buf : List Char) (σ : List Section) (a : Option Section) :
    generateAux sh (OPEN_BRACE :: cs) buf σ a none =
      (match (readMeta cs).1 with
       | .error e => .error e
       | .ok sec => generateAux sh (readMeta cs).2 buf (σ ++ [sec]) a (some OPEN_BRACE)) := by
  conv => lhs; unfold generateAux
  simp

/-- Handling a closing brace with no pending flush: pop and mark it pending. -/
theorem genAux_close (sh : Shell) (cs buf : List Char) (σ : List Section) (a : Option Section) :
    generateAux sh (CLOSE_BRACE :: cs) buf σ a none =
      generateAux sh cs buf σ.dropLast a (some CLOSE_BRACE) := by
  conv => lhs; unfold generateAux
  simp [open_ne_close.symm]

/-- Handling a plain character with no pending flush: copy it to the buffer. -/
theorem genAux_text (sh : Shell) (c : Char) (cs buf : List Char) (σ : List Section)
    (a : Option Section) (h1 : c ≠ OPEN_BRACE) (h2 : c ≠ CLOSE_BRACE) :
    generateAux sh (c :: cs) buf σ a none = generateAux sh cs (buf ++ [c]) σ a none := by
  conv => lhs; unfold generateAux
  simp [h1, h2]

/-- A run of plain text passes through the scan loop unchanged. -/
theorem genAux_text_run (sh : Shell) (text : List Char)
    (h : ∀ c ∈ text, c ≠ OPEN_BRACE ∧ c ≠ CLOSE_BRACE) :
    ∀ rest buf σ a, generateAux sh (text ++ rest) buf σ a none =
      generateAux sh rest (buf ++ text) σ a none := by
  induction text with
  | nil => intro rest buf σ a; simp
  | cons c cs ih =>
    intro rest buf σ a
    have hc := h c (by simp)
    rw [List.cons_append, genAux_text sh c _ _ _ _ hc.1 hc.2,
      ih (fun x hx => h x (by simp [hx]))]
    simp

/-! ## Tails of single and nested sections -/

/-- After a single pushed section with an open brace pending, brace-free text
followed by the closing brace produces the open boundary, the text, and the
closing boundary to `Reset`. -/
theorem genAux_single_tail (sh : Shell) (text buf : List Char) (a : Option Section) (sec : Section)
    (h : ∀ c ∈ text, c ≠ OPEN_BRACE ∧ c ≠ CLOSE_BRACE) :
    generateAux sh (text ++ [CLOSE_BRACE]) buf [sec] a (some OPEN_BRACE) =
      .ok (pushBrace (pushBrace buf OPEN_BRACE a (some sec) sh ++ text)
        CLOSE_BRACE (some sec) none sh) := by
  cases text with
  | nil =>
    rw [List.nil_append, genAux_flush sh OPEN_BRACE CLOSE_BRACE _ _ _ _ open_ne_close,
      genAux_close, genAux_nil_some]
    simp
  | cons c cs =>
    have hc := h c (by simp)
    rw [List.cons_append, genAux_flush sh OPEN_BRACE c _ _ _ _ (fun he => hc.1 he.symm)]
    rw [← List.cons_append,
      genAux_text_run sh (c :: cs) h [CLOSE_BRACE] _ _ _,
      genAux_close, genAux_nil_some]
    simp

/-- After two pushed sections with an open brace pending and no character
between the two closing braces, only one closing boundary is flushed, going
directly to `Reset`; the outer section never reaches the output. -/
theorem genAux_nested_tail (sh : Shell) (text buf : List Char) (a : Option Section)
    (A B : Section) (h : ∀ c ∈ text, c ≠ OPEN_BRACE ∧ c ≠ CLOSE_BRACE) :
    generateAux sh (text ++ [CLOSE_BRACE, CLOSE_BRACE]) buf [A, B] a (some OPEN_BRACE) =
      .ok (pushBrace (pushBrace buf OPEN_BRACE a (some B) sh ++ text)
        CLOSE_BRACE (some B) none sh) := by
  have hgl : [A, B].getLast? = some B := by simp
  cases text with
  | nil =>
    rw [List.nil_append, genAux_flush sh OPEN_BRACE CLOSE_BRACE _ _ _ _ open_ne_close, hgl,
      genAux_close, genAux_noflush, genAux_close, genAux_nil_some]
    simp
  | cons c cs =>
    have hc := h c (by simp)
    rw [List.cons_append, genAux_flush sh OPEN_BRACE c _ _ _ _ (fun he => hc.1 he.symm), hgl,
      ← List.cons_append,
      genAux_text_run sh (c :: cs) h [CLOSE_BRACE, CLOSE_BRACE] _ _ _,
      genAux_close, genAux_noflush, genAux_close, genAux_nil_some]
    simp

/-- Reading a two-field directive from the head of the remaining input:
parse failures abort with the labelled error, success pushes the section. -/
theorem genAux_directive (sh : Shell) (s1 s2 rest buf : List Char) (σ : List Section)
    (a : Option Section)
    (h1 : ∀ c ∈ s1, c ≠ ':' ∧ c ≠ ',') (h2 : ∀ c ∈ s2, c ≠ ':' ∧ c ≠ ',') :
    generateAux sh (OPEN_BRACE :: (s1 ++ (',' :: (s2 ++ (':' :: rest))))) buf σ a none =
      (match parseU8 s1 with
       | .error e => .error ("Invalid fg: " ++ e)
       | .ok fg =>
         match parseU8 s2 with
         | .error e => .error ("Invalid bg: " ++ e)
         | .ok bg => generateAux sh rest buf (σ ++ [⟨fg, bg⟩]) a (some OPEN_BRACE)) := by
  rw [genAux_open, readMeta_fields s1 s2 rest h1 h2]
  cases hp1 : parseU8 s1 with
  | error e => simp
  | ok fg =>
    cases hp2 : parseU8 s2 with
    | error e2 => simp
    | ok bg => simp

/-- Characters of the decimal rendering of a color are neither separators
nor braces. -/
theorem natChars_clean (n : Nat) : ∀ c ∈ natChars n, c ≠ ':' ∧ c ≠ ',' := by
  intro c hc
  obtain ⟨d, hd, rfl⟩ := mem_natChars n c hc
  obtain ⟨-, -, h3, h4, -⟩ := digitChar_facts d hd
  exact ⟨h3, h4⟩

/-- Output of `generate` on a well-formed single section, in terms of the
source's own boundary emitter. -/
theorem generate_single_section (sh : Shell) (fg bg : Nat) (hf : fg < 256) (hb : bg < 256)
    (text : List Char) (h : ∀ c ∈ text, c ≠ OPEN_BRACE ∧ c ≠ CLOSE_BRACE) :
    generate (OPEN_BRACE :: (natChars fg ++ (',' :: (natChars bg ++
        (':' :: (text ++ [CLOSE_BRACE])))))) sh =
      .ok (pushBrace (pushBrace [] OPEN_BRACE none (some ⟨fg, bg⟩) sh ++ text)
        CLOSE_BRACE (some ⟨fg, bg⟩) none sh) := by
  unfold generate
  rw [genAux_directive sh _ _ _ _ _ _ (natChars_clean fg) (natChars_clean bg),
    parseU8_natChars fg hf, parseU8_natChars bg hb]
  simp only [List.nil_append]
  exact genAux_single_tail sh text [] none ⟨fg, bg⟩ h

/-- Output of `generate` on a directly nested pair of sections: identical to
the single inner section; the outer section is never emitted. -/
theorem generate_nested_section (sh : Shell) (fgA bgA fgB bgB : Nat)
    (hfA : fgA < 256) (hbA : bgA < 256) (hfB : fgB < 256) (hbB : bgB < 256)
    (text : List Char) (h : ∀ c ∈ text, c ≠ OPEN_BRACE ∧ c ≠ CLOSE_BRACE) :
    generate (OPEN_BRACE :: (natChars fgA ++ (',' :: (natChars bgA ++
        (':' :: (OPEN_BRACE :: (natChars fgB ++ (',' :: (natChars bgB ++
        (':' :: (text ++ [CLOSE_BRACE, CLOSE_BRACE]))))))))))) sh =
      .ok (pushBrace (pushBrace [] OPEN_BRACE none (some ⟨fgB, bgB⟩) sh ++ text)
        CLOSE_BRACE (some ⟨fgB, bgB⟩) none sh) := by
  unfold generate
  rw [genAux_directive sh _ _ _ _ _ _ (natChars_clean fgA) (natChars_clean bgA),
    parseU8_natChars fgA hfA, parseU8_natChars bgA hbA]
  simp only []
  rw [genAux_noflush,
    genAux_directive sh _ _ _ _ _ _ (natChars_clean fgB) (natChars_clean bgB),
    parseU8_natChars fgB hfB, parseU8_natChars bgB hbB]
  simp only [List.nil_append]
  exact genAux_nested_tail sh text [] none ⟨fgA, bgA⟩ ⟨fgB, bgB⟩ h

/-! ## Explicit shapes of boundary emissions -/

/-- `push_escape_code` is: buffer, shell open marker, bare SGR sequence,
shell close marker. -/
theorem pushEscapeCode_eq (buf : List Char) (e : Escape) (sh : Shell) :
    pushEscapeCode buf e sh = buf ++ shellOpenMarker sh ++ sgr e ++ shellCloseMarker sh := by
  cases sh <;> cases e <;> simp [pushEscapeCode, sgr, shellOpenMarker, shellCloseMarker]

/-- Opening boundary under `Any` mode: `Foreground(next.bg)`, the open
sentinel, `Foreground(next.fg)`, `Background(next.bg)`. -/
theorem pushBrace_open_any (buf : List Char) (a : Option Section) (sec : Section) :
    pushBrace buf OPEN_BRACE a (some sec) .any =
      buf ++ sgr (.foreground sec.bg) ++ [SENTINEL_OPEN] ++ sgr (.foreground sec.fg) ++
        sgr (.background sec.bg) := by
  simp [pushBrace, pushEscapeCode_eq, shellOpenMarker, shellCloseMarker]

/-- Closing boundary under `Any` mode with no remaining section: `Reset`,
`Foreground(current.bg)`, the close sentinel, `Reset`. -/
theorem pushBrace_close_any (buf : List Char) (cur : Section) :
    pushBrace buf CLOSE_BRACE (some cur) none .any =
      buf ++ sgr .reset ++ sgr (.foreground cur.bg) ++ [SENTINEL_CLOSE] ++ sgr .reset := by
  simp +decide [pushBrace, pushEscapeCode_eq, shellOpenMarker, shellCloseMarker]

/-! ## Claim C1 -/

/-- C1 (counterexample): the claim puts one and the same sentinel character
in both sentinel slots of the single-section output; no choice of that
character matches the code, which uses U+E0B6 at the open boundary and
U+E0B4 at the close boundary of `generate("{0,1:xxx}", Any)`. -/
theorem claim_C1_counterexample :
    ¬ ∃ c : Char, generate ("\x7b0,1:xxx\x7d".toList) .any =
      .ok (claimedSingleSection c 0 1 ("xxx".toList)) := by
  rintro ⟨c, hc⟩
  have he : generate ("\x7b0,1:xxx\x7d".toList) .any =
      .ok (("\x1b[38;5;1m".toList ++ [SENTINEL_OPEN]) ++
        ("\x1b[38;5;0m\x1b[48;5;1mxxx\x1b[0m\x1b[38;5;1m".toList ++ [SENTINEL_CLOSE]) ++
        "\x1b[0m".toList) := by
    simp +decide [generate, generateAux, readMeta, splitComma, parseU8, parseU8Digits,
      natChars, natCharsAux, pushBrace, pushEscapeCode, OPEN_BRACE, CLOSE_BRACE, ESC,
      SENTINEL_OPEN, SENTINEL_CLOSE, digitChar]
  rw [he] at hc
  simp +decide [claimedSingleSection, sgr, natChars, natCharsAux, digitChar, ESC,
    SENTINEL_OPEN, SENTINEL_CLOSE] at hc
  obtain ⟨h1, h2⟩ := hc
  rw [← h1] at h2
  exact absurd h2 (by decide)

/-- C1 (amended): for a single well-formed section `{fg,bg:text}` under `Any`
mode the output is the concatenation of `Foreground(bg)`, the open sentinel
U+E0B6, `Foreground(fg)`, `Background(bg)`, the literal text, `Reset`,
`Foreground(bg)`, the close sentinel U+E0B4, `Reset` — each rendered as a
bare SGR sequence.  The two sentinel slots hold two distinct characters, not
one "sentinel character". -/
theorem claim_C1 (fg bg : Nat) (hf : fg < 256) (hb : bg < 256)
    (text : List Char) (h : ∀ c ∈ text, c ≠ OPEN_BRACE ∧ c ≠ CLOSE_BRACE) :
    generate (OPEN_BRACE :: (natChars fg ++ (',' :: (natChars bg ++
        (':' :: (text ++ [CLOSE_BRACE])))))) .any =
      .ok (sgr (.foreground bg) ++ [SENTINEL_OPEN] ++ sgr (.foreground fg) ++
        sgr (.background bg) ++ text ++ sgr .reset ++ sgr (.foreground bg) ++
        [SENTINEL_CLOSE] ++ sgr .reset) := by
  rw [generate_single_section .any fg bg hf hb text h, pushBrace_open_any,
    pushBrace_close_any]
  simp [List.append_assoc]

/-- C1 (witness): the amended claim instantiated at the spec's own example
`generate("{0,1:xxx}", Any)`. -/
theorem claim_C1_witness :
    generate ("\x7b0,1:xxx\x7d".toList) .any =
      .ok ("\x1b[38;5;1m".toList ++ [SENTINEL_OPEN] ++
        "\x1b[38;5;0m\x1b[48;5;1mxxx\x1b[0m\x1b[38;5;1m".toList ++ [SENTINEL_CLOSE] ++
        "\x1b[0m".toList) := by
  have h0 := claim_C1 0 1 (by decide) (by decide) ("xxx".toList) (by decide)
  have h1 : OPEN_BRACE :: (natChars 0 ++ (',' :: (natChars 1 ++
      (':' :: ("xxx".toList ++ [CLOSE_BRACE]))))) = "\x7b0,1:xxx\x7d".toList := by decide
  have h2 : sgr (.foreground 1) ++ [SENTINEL_OPEN] ++ sgr (.foreground 0) ++
      sgr (.background 1) ++ "xxx".toList ++ sgr .reset ++ sgr (.foreground 1) ++
      [SENTINEL_CLOSE] ++ sgr .reset =
      "\x1b[38;5;1m".toList ++ [SENTINEL_OPEN] ++
        "\x1b[38;5;0m\x1b[48;5;1mxxx\x1b[0m\x1b[38;5;1m".toList ++ [SENTINEL_CLOSE] ++
        "\x1b[0m".toList := by decide
  rw [h1, h2] at h0
  exact h0

/-! ## Claim C3 -/

/-- C3 (counterexample): on the directly nested template
`{0,1:{100,200:yyy}}` the output is not "A's open boundary, B's open
boundary, the text, B's close boundary transitioning toward A, A's close
boundary transitioning to Reset", with each boundary exactly as the source's
own emitter renders it. -/
theorem claim_C3_counterexample :
    generate ("\x7b0,1:\x7b100,200:yyy\x7d\x7d".toList) .any ≠
      .ok (pushBrace [] OPEN_BRACE none (some ⟨0, 1⟩) .any ++
        pushBrace [] OPEN_BRACE (some ⟨0, 1⟩) (some ⟨100, 200⟩) .any ++
        "yyy".toList ++
        pushBrace [] CLOSE_BRACE (some ⟨100, 200⟩) (some ⟨0, 1⟩) .any ++
        pushBrace [] CLOSE_BRACE (some ⟨0, 1⟩) none .any) := by
  intro hc
  have he : generate ("\x7b0,1:\x7b100,200:yyy\x7d\x7d".toList) .any =
      .ok (("\x1b[38;5;200m".toList ++ [SENTINEL_OPEN]) ++
        ("\x1b[38;5;100m\x1b[48;5;200myyy\x1b[0m\x1b[38;5;200m".toList ++ [SENTINEL_CLOSE]) ++
        "\x1b[0m".toList) := by
    simp +decide [generate, generateAux, readMeta, splitComma, parseU8, parseU8Digits,
      natChars, natCharsAux, pushBrace, pushEscapeCode, OPEN_BRACE, CLOSE_BRACE, ESC,
      SENTINEL_OPEN, SENTINEL_CLOSE, digitChar]
  rw [he] at hc
  simp +decide [pushBrace, pushEscapeCode, natChars, natCharsAux, digitChar, ESC,
    SENTINEL_OPEN, SENTINEL_CLOSE, OPEN_BRACE, CLOSE_BRACE, sgr] at hc

/-- C3 (amended): for a directly nested template `{A:{B:text}}` the adjacent
brace runs are each flushed once: the output equals that of the inner
section alone, `{B:text}` — B's open boundary, the text, one close boundary
transitioning directly to Reset; A's boundaries are never emitted. -/
theorem claim_C3 (fgA bgA fgB bgB : Nat)
    (hfA : fgA < 256) (hbA : bgA < 256) (hfB : fgB < 256) (hbB : bgB < 256)
    (text : List Char) (h : ∀ c ∈ text, c ≠ OPEN_BRACE ∧ c ≠ CLOSE_BRACE) :
    generate (OPEN_BRACE :: (natChars fgA ++ (',' :: (natChars bgA ++
        (':' :: (OPEN_BRACE :: (natChars fgB ++ (',' :: (natChars bgB ++
        (':' :: (text ++ [CLOSE_BRACE, CLOSE_BRACE]))))))))))) .any =
      generate (OPEN_BRACE :: (natChars fgB ++ (',' :: (natChars bgB ++
        (':' :: (text ++ [CLOSE_BRACE])))))) .any ∧
    generate (OPEN_BRACE :: (natChars fgB ++ (',' :: (natChars bgB ++
        (':' :: (text ++ [CLOSE_BRACE])))))) .any =
      .ok (sgr (.foreground bgB) ++ [SENTINEL_OPEN] ++ sgr (.foreground fgB) ++
        sgr (.background bgB) ++ text ++ sgr .reset ++ sgr (.foreground bgB) ++
        [SENTINEL_CLOSE] ++ sgr .reset) := by
  constructor
  · rw [generate_nested_section .any fgA bgA fgB bgB hfA hbA hfB hbB text h,
      generate_single_section .any fgB bgB hfB hbB text h]
  · rw [generate_single_section .any fgB bgB hfB hbB text h, pushBrace_open_any,
      pushBrace_close_any]
    simp [List.append_assoc]

/-- C3 (witness): the amended claim instantiated at `{0,1:{100,200:yyy}}`;
the output equals that of `{100,200:yyy}` alone. -/
theorem claim_C3_witness :
    generate ("\x7b0,1:\x7b100,200:yyy\x7d\x7d".toList) .any =
      generate ("\x7b100,200:yyy\x7d".toList) .any ∧
    generate ("\x7b100,200:yyy\x7d".toList) .any =
      .ok ("\x1b[38;5;200m".toList ++ [SENTINEL_OPEN] ++
        "\x1b[38;5;100m\x1b[48;5;200myyy\x1b[0m\x1b[38;5;200m".toList ++ [SENTINEL_CLOSE] ++
        "\x1b[0m".toList) := by
  have h0 := claim_C3 0 1 100 200 (by decide) (by decide) (by decide) (by decide)
    ("yyy".toList) (by decide)
  have h1 : OPEN_BRACE :: (natChars 0 ++ (',' :: (natChars 1 ++
      (':' :: (OPEN_BRACE :: (natChars 100 ++ (',' :: (natChars 200 ++
      (':' :: ("yyy".toList ++ [CLOSE_BRACE, CLOSE_BRACE])))))))))) =
      "\x7b0,1:\x7b100,200:yyy\x7d\x7d".toList := by decide
  have h2 : OPEN_BRACE :: (natChars 100 ++ (',' :: (natChars 200 ++
      (':' :: ("yyy".toList ++ [CLOSE_BRACE]))))) = "\x7b100,200:yyy\x7d".toList := by decide
  have h3 : sgr (.foreground 200) ++ [SENTINEL_OPEN] ++ sgr (.foreground 100) ++
      sgr (.background 200) ++ "yyy".toList ++ sgr .reset ++ sgr (.foreground 200) ++
      [SENTINEL_CLOSE] ++ sgr .reset =
      "\x1b[38;5;200m".toList ++ [SENTINEL_OPEN] ++
        "\x1b[38;5;100m\x1b[48;5;200myyy\x1b[0m\x1b[38;5;200m".toList ++ [SENTINEL_CLOSE] ++
        "\x1b[0m".toList := by decide
  rw [h1, h2, h3] at h0
  exact h0

/-! ## Error propagation through a plain prefix -/

/-- `generate` on a brace-free prefix followed by anything: the prefix is
copied and the scan continues. -/
theorem generate_text_lead (sh : Shell) (p rest : List Char)
    (hp : ∀ c ∈ p, c ≠ OPEN_BRACE ∧ c ≠ CLOSE_BRACE) :
    generate (p ++ rest) sh = generateAux sh rest p [] none none := by
  unfold generate
  rw [genAux_text_run sh p hp rest [] [] none]
  simp

/-! ## Claim C5 -/

/-- C5: in a two-field directive, a field that fails the `u8` parse aborts
generation with an `Invalid fg:`/`Invalid bg:` error echoing the parse
failure reason, the foreground field checked first; every value 0–255 parses
back from its decimal rendering; and `generate("{999,1:xxx}", Any)` fails
for the foreground field with the "too large" reason. -/
theorem claim_C5 (p s1 s2 rest : List Char) (sh : Shell)
    (hp : ∀ c ∈ p, c ≠ OPEN_BRACE ∧ c ≠ CLOSE_BRACE)
    (h1 : ∀ c ∈ s1, c ≠ ':' ∧ c ≠ ',') (h2 : ∀ c ∈ s2, c ≠ ':' ∧ c ≠ ',') :
    (∀ e, parseU8 s1 = .error e →
      generate (p ++ (OPEN_BRACE :: (s1 ++ (',' :: (s2 ++ (':' :: rest)))))) sh =
        .error ("Invalid fg: " ++ e)) ∧
    (∀ fg e, parseU8 s1 = .ok fg → parseU8 s2 = .error e →
      generate (p ++ (OPEN_BRACE :: (s1 ++ (',' :: (s2 ++ (':' :: rest)))))) sh =
        .error ("Invalid bg: " ++ e)) ∧
    (∀ n, n < 256 → parseU8 (natChars n) = .ok n) ∧
    generate ("\x7b999,1:xxx\x7d".toList) .any =
      .error "Invalid fg: number too large to fit in target type" := by
  refine ⟨?_, ?_, parseU8_natChars, ?_⟩
  · intro e he
    rw [generate_text_lead sh p _ hp, genAux_directive sh s1 s2 rest p [] none h1 h2, he]
  · intro fg e hfg he
    rw [generate_text_lead sh p _ hp, genAux_directive sh s1 s2 rest p [] none h1 h2, hfg, he]
  · simp +decide [generate, generateAux, readMeta, splitComma, parseU8, parseU8Digits,
      natChars, natCharsAux, OPEN_BRACE, CLOSE_BRACE, digitChar]

/-- C5 (witness): non-digit foreground, too-large background, and the spec's
`{999,1:xxx}` example. -/
theorem claim_C5_witness :
    generate ("\x7babc,1:xxx\x7d".toList) .any = .error "Invalid fg: invalid digit found in string" ∧
    generate ("\x7b1,300:xxx\x7d".toList) .any =
      .error "Invalid bg: number too large to fit in target type" ∧
    generate ("\x7b999,1:xxx\x7d".toList) .any =
      .error "Invalid fg: number too large to fit in target type" := by
  have e1 : "\x7babc,1:xxx\x7d".toList =
      [] ++ (OPEN_BRACE :: ("abc".toList ++ (',' :: ("1".toList ++
        (':' :: "xxx\x7d".toList))))) := by decide
  have e2 : "\x7b1,300:xxx\x7d".toList =
      [] ++ (OPEN_BRACE :: ("1".toList ++ (',' :: ("300".toList ++
        (':' :: "xxx\x7d".toList))))) := by decide
  have hA := (claim_C5 [] ("abc".toList) ("1".toList) ("xxx\x7d".toList) .any
    (by decide) (by decide) (by decide)).1 "invalid digit found in string" (by decide)
  have hB := (claim_C5 [] ("1".toList) ("300".toList) ("xxx\x7d".toList) .any
    (by decide) (by decide) (by decide)).2.1 1 "number too large to fit in target type"
    (by decide) (by decide)
  have hC := (claim_C5 [] [] [] [] .any (by decide) (by decide) (by decide)).2.2.2
  exact ⟨by rw [e1]; exact hA, by rw [e2]; exact hB, hC⟩

/-! ## Claim C6 -/

/-- C6: a terminated directive whose metadata does not split on commas into
exactly two fields fails with the `MalformedMetadata` message, regardless of
anything else. -/
theorem claim_C6 (p meta rest : List Char) (sh : Shell)
    (hp : ∀ c ∈ p, c ≠ OPEN_BRACE ∧ c ≠ CLOSE_BRACE)
    (hc : ∀ c ∈ meta, c ≠ ':') (hn : (splitComma meta).length ≠ 2) :
    generate (p ++ (OPEN_BRACE :: (meta ++ (':' :: rest)))) sh =
      .error "Both fg and bg should be specified" := by
  rw [generate_text_lead sh p _ hp, genAux_open, readMeta_badCount meta rest hc hn]

/-- C6 (witness): one field (`{1:xxx}`, the spec's example) and three fields
with individually valid color values (`{1,2,3:xxx}`). -/
theorem claim_C6_witness :
    generate ("\x7b1:xxx\x7d".toList) .any = .error "Both fg and bg should be specified" ∧
    generate ("\x7b1,2,3:xxx\x7d".toList) .any = .error "Both fg and bg should be specified" := by
  have e1 : "\x7b1:xxx\x7d".toList =
      [] ++ (OPEN_BRACE :: ("1".toList ++ (':' :: "xxx\x7d".toList))) := by decide
  have e2 : "\x7b1,2,3:xxx\x7d".toList =
      [] ++ (OPEN_BRACE :: ("1,2,3".toList ++ (':' :: "xxx\x7d".toList))) := by decide
  constructor
  · rw [e1]
    exact claim_C6 [] ("1".toList) ("xxx\x7d".toList) .any (by decide) (by decide) (by decide)
  · rw [e2]
    exact claim_C6 [] ("1,2,3".toList) ("xxx\x7d".toList) .any (by decide) (by decide) (by decide)

/-! ## Claim C8 -/

/-- C8: when input ends before a `:` terminator, the collected metadata is
still split on commas, and a field-count mismatch yields exactly the same
`MalformedMetadata` error a terminated directive would produce; there is no
distinct "unterminated" error. -/
theorem claim_C8 (p meta : List Char) (sh : Shell)
    (hp : ∀ c ∈ p, c ≠ OPEN_BRACE ∧ c ≠ CLOSE_BRACE)
    (hc : ∀ c ∈ meta, c ≠ ':') (hn : (splitComma meta).length ≠ 2) :
    generate (p ++ (OPEN_BRACE :: meta)) sh = .error "Both fg and bg should be specified" ∧
    ∀ rest, generate (p ++ (OPEN_BRACE :: (meta ++ (':' :: rest)))) sh =
      .error "Both fg and bg should be specified" := by
  constructor
  · rw [generate_text_lead sh p _ hp, genAux_open, readMeta_unterminated meta hc hn]
  · intro rest
    rw [generate_text_lead sh p _ hp, genAux_open, readMeta_badCount meta rest hc hn]

/-- C8 (witness): `{1` (unterminated) and `{1:` (terminated) produce the same
field-count error. -/
theorem claim_C8_witness :
    generate ("\x7b1".toList) .any = .error "Both fg and bg should be specified" ∧
    generate ("\x7b1:".toList) .any = .error "Both fg and bg should be specified" := by
  have h0 := claim_C8 [] ("1".toList) .any (by decide) (by decide) (by decide)
  have e1 : "\x7b1".toList = [] ++ (OPEN_BRACE :: "1".toList) := by decide
  have e2 : "\x7b1:".toList =
      [] ++ (OPEN_BRACE :: ("1".toList ++ (':' :: ([] : List Char)))) := by decide
  exact ⟨by rw [e1]; exact h0.1, by rw [e2]; exact h0.2 []⟩

/-! ## Claim C10 -/

/-- C10: a template containing neither brace is returned unchanged, for any
shell mode: no escape codes, wrappers, or sentinels are emitted. -/
theorem claim_C10 (T : List Char) (sh : Shell)
    (h : ∀ c ∈ T, c ≠ OPEN_BRACE ∧ c ≠ CLOSE_BRACE) :
    generate T sh = .ok T := by
  have h0 := generate_text_lead sh T [] h
  rw [List.append_nil] at h0
  rw [h0, genAux_nil_none]

/-- C10 (witness): a plain text template is returned unchanged under zsh mode. -/
theorem claim_C10_witness : generate ("hello world".toList) .zsh = .ok ("hello world".toList) :=
  claim_C10 ("hello world".toList) .zsh (by decide)

/-! ## Success of generation is exactly success of all metadata parses -/

theorem readMeta_rest_length_le (cs : List Char) : (readMeta cs).2.length ≤ cs.length := by
  have h1 : ((cs.dropWhile (fun c => c != ':')).drop 1).length ≤ cs.length := by
    have h2 : (cs.dropWhile (fun c => c != ':')).length ≤ cs.length :=
      (List.dropWhile_sublist _).length_le
    have h3 : ((cs.dropWhile (fun c => c != ':')).drop 1).length ≤
        (cs.dropWhile (fun c => c != ':')).length := (List.drop_sublist _ _).length_le
    omega
  unfold readMeta
  dsimp only
  split
  · split
    · exact h1
    · split
      · exact h1
      · exact h1
  · exact h1

theorem metaOk_nil : metaOk [] = true := by
  unfold metaOk; rfl

theorem metaOk_open (cs : List Char) :
    metaOk (OPEN_BRACE :: cs) =
      (match (readMeta cs).1 with
       | .ok _ => metaOk (readMeta cs).2
       | .error _ => false) := by
  conv => lhs; unfold metaOk
  simp

theorem metaOk_other (c : Char) (cs : List Char) (h : c ≠ OPEN_BRACE) :
    metaOk (c :: cs) = metaOk cs := by
  conv => lhs; unfold metaOk
  simp [h]

/-- The scan succeeds exactly when every metadata parse encountered along
the way succeeds, whatever the buffer, stack, active section or pending
brace: closing braces and stack state never cause failure. -/
theorem genAux_ok_iff : ∀ (n : Nat) (cs : List Char), cs.length ≤ n →
    ∀ (sh : Shell) (buf : List Char) (σ : List Section) (a : Option Section) (l : Option Char),
    (errOf (generateAux sh cs buf σ a l) = none ↔ metaOk cs = true) := by
  intro n
  induction n with
  | zero =>
    intro cs hcs sh buf σ a l
    have he : cs = [] := List.length_eq_zero.mp (Nat.le_zero.mp hcs)
    subst he
    cases l with
    | none => simp [genAux_nil_none, errOf, metaOk_nil]
    | some b => simp [genAux_nil_some, errOf, metaOk_nil]
  | succ n ih =>
    intro cs hcs sh buf σ a l
    cases cs with
    | nil =>
      cases l with
      | none => simp [genAux_nil_none, errOf, metaOk_nil]
      | some b => simp [genAux_nil_some, errOf, metaOk_nil]
    | cons c cs2 =>
      have hlen : cs2.length ≤ n := by
        simp only [List.length_cons] at hcs; omega
      have key : ∀ (buf2 : List Char) (a2 : Option Section),
          (errOf (generateAux sh (c :: cs2) buf2 σ a2 none) = none ↔
            metaOk (c :: cs2) = true) := by
        intro buf2 a2
        by_cases hc : c = OPEN_BRACE
        · subst hc
          rw [genAux_open, metaOk_open]
          cases hrm : (readMeta cs2).1 with
          | error e => simp [errOf]
          | ok sec =>
            have hlen2 : (readMeta cs2).2.length ≤ n :=
              le_trans (readMeta_rest_length_le cs2) hlen
            exact ih _ hlen2 sh buf2 (σ ++ [sec]) a2 (some OPEN_BRACE)
        · by_cases hc2 : c = CLOSE_BRACE
          · subst hc2
            rw [genAux_close, metaOk_other _ _ (Ne.symm open_ne_close)]
            exact ih cs2 hlen sh buf2 σ.dropLast a2 (some CLOSE_BRACE)
          · rw [genAux_text sh c cs2 buf2 σ a2 hc hc2, metaOk_other _ _ hc]
            exact ih cs2 hlen sh (buf2 ++ [c]) σ a2 none
      cases l with
      | none => exact key buf a
      | some b =>
        by_cases hbc : b = c
        · subst hbc
          rw [genAux_noflush]
          exact key buf a
        · rw [genAux_flush sh b c cs2 buf σ a hbc]
          exact key _ _

/-! ## Claim C4 -/

/-- C4: a closing brace on an empty section stack never causes an error —
generation succeeds exactly when every directive's metadata parses, a
condition that never looks at closing braces; the empty pop is a no-op; and
the final flush of a pending close on the empty stack treats the section
after the pop as absent (`next = none`). -/
theorem claim_C4 :
    (∀ T sh, errOf (generate T sh) = none ↔ metaOk T = true) ∧
    (∀ cs, metaOk (CLOSE_BRACE :: cs) = metaOk cs) ∧
    (∀ sh cs buf a, generateAux sh (CLOSE_BRACE :: cs) buf [] a none =
      generateAux sh cs buf [] a (some CLOSE_BRACE)) ∧
    (∀ sh buf a, generateAux sh [] buf [] a (some CLOSE_BRACE) =
      .ok (pushBrace buf CLOSE_BRACE a none sh)) := by
  refine ⟨?_, ?_, ?_, ?_⟩
  · intro T sh
    exact genAux_ok_iff T.length T le_rfl sh [] [] none none
  · intro cs
    exact metaOk_other _ _ (Ne.symm open_ne_close)
  · intro sh cs buf a
    rw [genAux_close]
    simp
  · intro sh buf a
    rw [genAux_nil_some]
    simp

/-! ## Shell independence of success and error -/

/-- The error outcome of the scan does not depend on the shell mode or the
buffer contents. -/
theorem genAux_err_indep : ∀ (n : Nat) (cs : List Char), cs.length ≤ n →
    ∀ (σ : List Section) (a : Option Section) (l : Option Char)
      (sh1 sh2 : Shell) (buf1 buf2 : List Char),
    errOf (generateAux sh1 cs buf1 σ a l) = errOf (generateAux sh2 cs buf2 σ a l) := by
  intro n
  induction n with
  | zero =>
    intro cs hcs σ a l sh1 sh2 buf1 buf2
    have he : cs = [] := List.length_eq_zero.mp (Nat.le_zero.mp hcs)
    subst he
    cases l with
    | none => simp [genAux_nil_none, errOf]
    | some b => simp [genAux_nil_some, errOf]
  | succ n ih =>
    intro cs hcs σ a l sh1 sh2 buf1 buf2
    cases cs with
    | nil =>
      cases l with
      | none => simp [genAux_nil_none, errOf]
      | some b => simp [genAux_nil_some, errOf]
    | cons c cs2 =>
      have hlen : cs2.length ≤ n := by
        simp only [List.length_cons] at hcs; omega
      have key : ∀ (a2 : Option Section) (buf3 buf4 : List Char),
          errOf (generateAux sh1 (c :: cs2) buf3 σ a2 none) =
            errOf (generateAux sh2 (c :: cs2) buf4 σ a2 none) := by
        intro a2 buf3 buf4
        by_cases hc : c = OPEN_BRACE
        · subst hc
          rw [genAux_open, genAux_open]
          cases hrm : (readMeta cs2).1 with
          | error e => simp
          | ok sec =>
            have hlen2 : (readMeta cs2).2.length ≤ n :=
              le_trans (readMeta_rest_length_le cs2) hlen
            exact ih _ hlen2 (σ ++ [sec]) a2 (some OPEN_BRACE) sh1 sh2 buf3 buf4
        · by_cases hc2 : c = CLOSE_BRACE
          · subst hc2
            rw [genAux_close, genAux_close]
            exact ih cs2 hlen σ.dropLast a2 (some CLOSE_BRACE) sh1 sh2 buf3 buf4
          · rw [genAux_text sh1 c cs2 buf3 σ a2 hc hc2, genAux_text sh2 c cs2 buf4 σ a2 hc hc2]
            exact ih cs2 hlen σ a2 none sh1 sh2 (buf3 ++ [c]) (buf4 ++ [c])
      cases l with
      | none => exact key a buf1 buf2
      | some b =>
        by_cases hbc : b = c
        · subst hbc
          rw [genAux_noflush, genAux_noflush]
          exact key a buf1 buf2
        · rw [genAux_flush sh1 b c cs2 buf1 σ a hbc, genAux_flush sh2 b c cs2 buf2 σ a hbc]
          exact key _ _ _

theorem errOf_eq_none_iff (r : Except String (List Char)) :
    errOf r = none ↔ ∃ out, r = .ok out := by
  cases r <;> simp [errOf]

/-! ## Claim C9 -/

/-- C9: the shell mode influences neither whether `generate` succeeds nor
the error value: the two runs fail together and with identical messages. -/
theorem claim_C9 (T : List Char) (s1 s2 : Shell) :
    errOf (generate T s1) = errOf (generate T s2) ∧
    ((∃ out, generate T s1 = .ok out) ↔ (∃ out, generate T s2 = .ok out)) := by
  have h0 : errOf (generate T s1) = errOf (generate T s2) :=
    genAux_err_indep T.length T le_rfl [] none none s1 s2 [] []
  refine ⟨h0, ?_⟩
  rw [← errOf_eq_none_iff, ← errOf_eq_none_iff, h0]

/-! ## The wrapping transform -/

theorem wrapEscapes_nil (op cl : List Char) : wrapEscapes op cl [] = [] := by
  unfold wrapEscapes; rfl

theorem wrapEscapes_cons_ne (op cl : List Char) (c : Char) (rest : List Char) (h : c ≠ ESC) :
    wrapEscapes op cl (c :: rest) = c :: wrapEscapes op cl rest := by
  conv => lhs; unfold wrapEscapes
  simp [h]

theorem takeWhile_append_stop (stop : Char) (m rest : List Char) (h : ∀ c ∈ m, c ≠ stop) :
    (m ++ stop :: rest).takeWhile (fun c => c != stop) = m := by
  induction m with
  | nil => simp
  | cons c cs ih =>
    have hc : c ≠ stop := h c (by simp)
    simp only [List.cons_append, List.takeWhile_cons]
    simp only [bne_iff_ne, ne_eq, hc, not_false_eq_true, if_true]
    rw [ih (fun x hx => h x (by simp [hx]))]

theorem dropWhile_append_stop (stop : Char) (m rest : List Char) (h : ∀ c ∈ m, c ≠ stop) :
    (m ++ stop :: rest).dropWhile (fun c => c != stop) = stop :: rest := by
  induction m with
  | nil => simp
  | cons c cs ih =>
    have hc : c ≠ stop := h c (by simp)
    simp only [List.cons_append, List.dropWhile_cons]
    simp only [bne_iff_ne, ne_eq, hc, not_false_eq_true, if_true]
    exact ih (fun x hx => h x (by simp [hx]))

/-- Wrapping a complete escape sequence `ESC body m` at the head of the
string: the sequence is wrapped and the transform continues after it. -/
theorem wrapEscapes_escape (op cl body x : List Char) (hb : ∀ c ∈ body, c ≠ 'm') :
    wrapEscapes op cl (ESC :: (body ++ ('m' :: x))) =
      op ++ (ESC :: (body ++ ('m' :: (cl ++ wrapEscapes op cl x)))) := by
  conv => lhs; unfold wrapEscapes
  rw [if_pos rfl]
  split
  · next heq =>
    rw [dropWhile_append_stop 'm' body x hb] at heq
    simp at heq
  · next hd tail heq =>
    rw [dropWhile_append_stop 'm' body x hb] at heq
    injection heq with h1 h2
    subst h1
    subst h2
    rw [takeWhile_append_stop 'm' body x hb]
    simp

/-- The transform passes escape-free text through unchanged. -/
theorem wrapEscapes_text (op cl t x : List Char) (h : ∀ c ∈ t, c ≠ ESC) :
    wrapEscapes op cl (t ++ x) = t ++ wrapEscapes op cl x := by
  induction t with
  | nil => simp
  | cons c cs ih =>
    have hc : c ≠ ESC := h c (by simp)
    rw [List.cons_append, wrapEscapes_cons_ne op cl c _ hc,
      ih (fun y hy => h y (by simp [hy]))]
    rfl

theorem escClosed_nil (op cl : List Char) : EscClosed op cl [] := by
  intro x
  simp [wrapEscapes_nil]

theorem escClosed_append (op cl A B : List Char) (hA : EscClosed op cl A)
    (hB : EscClosed op cl B) : EscClosed op cl (A ++ B) := by
  intro x
  rw [List.append_assoc, hA, hB, hA, ← List.append_assoc]

theorem escClosed_text (op cl t : List Char) (h : ∀ c ∈ t, c ≠ ESC) : EscClosed op cl t := by
  have hid : wrapEscapes op cl t = t := by
    have h0 := wrapEscapes_text op cl t [] h
    simpa [wrapEscapes_nil] using h0
  intro x
  rw [wrapEscapes_text op cl t x h, hid]

/-- Characters of an SGR body (`38;5;n`, `48;5;n`, or `0`), together with the
leading `[`, are never `m` and never the escape character. -/
theorem sgrF_body_clean (color : Nat) :
    ∀ c ∈ ('[' :: (['3', '8', ';', '5', ';'] ++ natChars color)), c ≠ 'm' ∧ c ≠ ESC := by
  intro c hc
  rcases List.mem_cons.mp hc with hc | hc
  · subst hc; exact ⟨by decide, by decide⟩
  rcases List.mem_append.mp hc with hc | hc
  · fin_cases hc <;> exact ⟨by decide, by decide⟩
  · obtain ⟨d, hd, rfl⟩ := mem_natChars _ _ hc
    obtain ⟨-, -, -, -, -, -, h7, h8, -⟩ := digitChar_facts d hd
    exact ⟨h7, h8⟩

theorem sgrB_body_clean (color : Nat) :
    ∀ c ∈ ('[' :: (['4', '8', ';', '5', ';'] ++ natChars color)), c ≠ 'm' ∧ c ≠ ESC := by
  intro c hc
  rcases List.mem_cons.mp hc with hc | hc
  · subst hc; exact ⟨by decide, by decide⟩
  rcases List.mem_append.mp hc with hc | hc
  · fin_cases hc <;> exact ⟨by decide, by decide⟩
  · obtain ⟨d, hd, rfl⟩ := mem_natChars _ _ hc
    obtain ⟨-, -, -, -, -, -, h7, h8, -⟩ := digitChar_facts d hd
    exact ⟨h7, h8⟩

/-- Wrapping distributes over a leading bare SGR sequence. -/
theorem wrapEscapes_sgr (op cl : List Char) (e : Escape) (x : List Char) :
    wrapEscapes op cl (sgr e ++ x) = op ++ sgr e ++ cl ++ wrapEscapes op cl x := by
  cases e with
  | foreground color =>
    have he : sgr (.foreground color) ++ x =
        ESC :: (('[' :: (['3', '8', ';', '5', ';'] ++ natChars color)) ++ ('m' :: x)) := by
      simp [sgr]
    rw [he, wrapEscapes_escape op cl _ x (fun c hc => (sgrF_body_clean color c hc).1)]
    simp [sgr]
  | background color =>
    have he : sgr (.background color) ++ x =
        ESC :: (('[' :: (['4', '8', ';', '5', ';'] ++ natChars color)) ++ ('m' :: x)) := by
      simp [sgr]
    rw [he, wrapEscapes_escape op cl _ x (fun c hc => (sgrB_body_clean color c hc).1)]
    simp [sgr]
  | reset =>
    have he : sgr .reset ++ x = ESC :: (('[' :: ['0']) ++ ('m' :: x)) := by
      simp [sgr]
    rw [he, wrapEscapes_escape op cl _ x (by intro c hc; fin_cases hc <;> decide)]
    simp [sgr]

theorem escClosed_sgr (op cl : List Char) (e : Escape) : EscClosed op cl (sgr e) := by
  intro x
  rw [wrapEscapes_sgr, show sgr e = sgr e ++ [] by simp, wrapEscapes_sgr]
  simp [wrapEscapes_nil]

theorem wrapEscapes_sentinel_open (op cl : List Char) (x : List Char) :
    wrapEscapes op cl (SENTINEL_OPEN :: x) = SENTINEL_OPEN :: wrapEscapes op cl x :=
  wrapEscapes_cons_ne op cl _ x (by decide)

theorem wrapEscapes_sentinel_close (op cl : List Char) (x : List Char) :
    wrapEscapes op cl (SENTINEL_CLOSE :: x) = SENTINEL_CLOSE :: wrapEscapes op cl x :=
  wrapEscapes_cons_ne op cl _ x (by decide)

theorem escClosed_singleton (op cl : List Char) (c : Char) (h : c ≠ ESC) :
    EscClosed op cl [c] :=
  escClosed_text op cl [c] (by intro y hy; simp at hy; subst hy; exact h)

theorem wrapEscapes_sgr_nil (op cl : List Char) (e : Escape) :
    wrapEscapes op cl (sgr e) = op ++ sgr e ++ cl := by
  rw [show sgr e = sgr e ++ [] by simp, wrapEscapes_sgr]
  simp [wrapEscapes_nil]

/-- `push_escape_code` under a wrapping shell produces exactly the wrap of
what it produces under `Any`. -/
theorem pushEscapeCode_wrap (sh : Shell) (buf : List Char) (e : Escape)
    (hbuf : EscClosed (shellOpenMarker sh) (shellCloseMarker sh) buf) :
    pushEscapeCode (wrapEscapes (shellOpenMarker sh) (shellCloseMarker sh) buf) e sh =
      wrapEscapes (shellOpenMarker sh) (shellCloseMarker sh) (pushEscapeCode buf e .any) := by
  rw [pushEscapeCode_eq, pushEscapeCode_eq,
    show buf ++ shellOpenMarker .any ++ sgr e ++ shellCloseMarker .any = buf ++ sgr e by
      simp [shellOpenMarker, shellCloseMarker],
    hbuf (sgr e), wrapEscapes_sgr_nil]
  simp [List.append_assoc]

theorem escClosed_pushEscapeCode_any (op cl buf : List Char) (e : Escape)
    (hbuf : EscClosed op cl buf) : EscClosed op cl (pushEscapeCode buf e .any) := by
  rw [pushEscapeCode_eq,
    show buf ++ shellOpenMarker .any ++ sgr e ++ shellCloseMarker .any = buf ++ sgr e by
      simp [shellOpenMarker, shellCloseMarker]]
  exact escClosed_append op cl _ _ hbuf (escClosed_sgr op cl e)

/-- `push_brace` under a wrapping shell produces exactly the wrap of what it
produces under `Any`. -/
theorem pushBrace_wrap (sh : Shell) (b : Char) (cur nxt : Option Section) (buf : List Char)
    (hbuf : EscClosed (shellOpenMarker sh) (shellCloseMarker sh) buf) :
    pushBrace (wrapEscapes (shellOpenMarker sh) (shellCloseMarker sh) buf) b cur nxt sh =
      wrapEscapes (shellOpenMarker sh) (shellCloseMarker sh) (pushBrace buf b cur nxt .any) := by
  by_cases hb1 : b = OPEN_BRACE
  · subst hb1
    cases nxt with
    | none => simp [pushBrace]
    | some n0 =>
      simp only [pushBrace, if_true, eq_self_iff_true]
      rw [pushEscapeCode_wrap sh buf _ hbuf,
        show wrapEscapes (shellOpenMarker sh) (shellCloseMarker sh)
            (pushEscapeCode buf (.foreground n0.bg) .any) ++ [SENTINEL_OPEN] =
          wrapEscapes (shellOpenMarker sh) (shellCloseMarker sh)
            (pushEscapeCode buf (.foreground n0.bg) .any ++ [SENTINEL_OPEN]) by
          rw [escClosed_pushEscapeCode_any _ _ _ _ hbuf [SENTINEL_OPEN]]
          simp [wrapEscapes_sentinel_open, wrapEscapes_nil],
        pushEscapeCode_wrap sh _ _ (escClosed_append _ _ _ _
          (escClosed_pushEscapeCode_any _ _ _ _ hbuf)
          (escClosed_singleton _ _ SENTINEL_OPEN (by decide))),
        pushEscapeCode_wrap sh _ _ (escClosed_pushEscapeCode_any _ _ _ _
          (escClosed_append _ _ _ _ (escClosed_pushEscapeCode_any _ _ _ _ hbuf)
            (escClosed_singleton _ _ SENTINEL_OPEN (by decide))))]
  · by_cases hb2 : b = CLOSE_BRACE
    · subst hb2
      cases cur with
      | none =>
        simp only [pushBrace, if_neg hb1, if_true, eq_self_iff_true]
        rw [pushEscapeCode_wrap sh buf _ hbuf,
          pushEscapeCode_wrap sh _ _ (escClosed_pushEscapeCode_any _ _ _ _ hbuf)]
      | some c0 =>
        simp only [pushBrace, if_neg hb1, if_true, eq_self_iff_true]
        rw [pushEscapeCode_wrap sh buf _ hbuf,
          show pushEscapeCode (wrapEscapes (shellOpenMarker sh) (shellCloseMarker sh)
              (pushEscapeCode buf (match nxt with
                | some nxt => Escape.background nxt.bg
                | none => Escape.reset) .any)) (.foreground c0.bg) sh =
            wrapEscapes (shellOpenMarker sh) (shellCloseMarker sh)
              (pushEscapeCode (pushEscapeCode buf (match nxt with
                | some nxt => Escape.background nxt.bg
                | none => Escape.reset) .any) (.foreground c0.bg) .any) from
            pushEscapeCode_wrap sh _ _ (escClosed_pushEscapeCode_any _ _ _ _ hbuf),
          show wrapEscapes (shellOpenMarker sh) (shellCloseMarker sh)
              (pushEscapeCode (pushEscapeCode buf (match nxt with
                | some nxt => Escape.background nxt.bg
                | none => Escape.reset) .any) (.foreground c0.bg) .any) ++ [SENTINEL_CLOSE] =
            wrapEscapes (shellOpenMarker sh) (shellCloseMarker sh)
              (pushEscapeCode (pushEscapeCode buf (match nxt with
                | some nxt => Escape.background nxt.bg
                | none => Escape.reset) .any) (.foreground c0.bg) .any ++ [SENTINEL_CLOSE]) by
            rw [escClosed_pushEscapeCode_any _ _ _ _
              (escClosed_pushEscapeCode_any _ _ _ _ hbuf) [SENTINEL_CLOSE]]
            simp [wrapEscapes_sentinel_close, wrapEscapes_nil],
          pushEscapeCode_wrap sh _ _ (escClosed_append _ _ _ _
            (escClosed_pushEscapeCode_any _ _ _ _
              (escClosed_pushEscapeCode_any _ _ _ _ hbuf))
            (escClosed_singleton _ _ SENTINEL_CLOSE (by decide)))]
    · simp [pushBrace, hb1, hb2]

theorem escClosed_pushBrace_any (op cl buf : List Char) (b : Char) (cur nxt : Option Section)
    (hbuf : EscClosed op cl buf) : EscClosed op cl (pushBrace buf b cur nxt .any) := by
  by_cases hb1 : b = OPEN_BRACE
  · subst hb1
    cases nxt with
    | none => simpa [pushBrace] using hbuf
    | some n0 =>
      simp only [pushBrace, if_true, eq_self_iff_true]
      exact escClosed_pushEscapeCode_any _ _ _ _ (escClosed_pushEscapeCode_any _ _ _ _
        (escClosed_append _ _ _ _ (escClosed_pushEscapeCode_any _ _ _ _ hbuf)
          (escClosed_singleton _ _ SENTINEL_OPEN (by decide))))
  · by_cases hb2 : b = CLOSE_BRACE
    · subst hb2
      cases cur with
      | none =>
        simp only [pushBrace, if_neg hb1, if_true, eq_self_iff_true]
        exact escClosed_pushEscapeCode_any _ _ _ _ (escClosed_pushEscapeCode_any _ _ _ _ hbuf)
      | some c0 =>
        simp only [pushBrace, if_neg hb1, if_true, eq_self_iff_true]
        exact escClosed_pushEscapeCode_any _ _ _ _ (escClosed_append _ _ _ _
          (escClosed_pushEscapeCode_any _ _ _ _ (escClosed_pushEscapeCode_any _ _ _ _ hbuf))
          (escClosed_singleton _ _ SENTINEL_CLOSE (by decide)))
    · simpa [pushBrace, hb1, hb2] using hbuf

theorem readMeta_snd (cs : List Char) :
    (readMeta cs).2 = (cs.dropWhile (fun c => c != ':')).drop 1 := by
  unfold readMeta
  dsimp only
  split
  · split
    · rfl
    · split
      · rfl
      · rfl
  · rfl

theorem readMeta_rest_subset (cs : List Char) (c : Char) (h : c ∈ (readMeta cs).2) : c ∈ cs := by
  rw [readMeta_snd] at h
  exact ((List.drop_sublist _ _).trans (List.dropWhile_sublist _)).subset h

/-- Bisimulation of the scan under a wrapping shell and under `Any`: for an
escape-free template the wrapped run produces exactly the wrap of the plain
run, and both fail identically. -/
theorem genAux_wrap : ∀ (n : Nat) (cs : List Char), cs.length ≤ n →
    ∀ (sh : Shell) (buf : List Char) (σ : List Section) (a : Option Section) (l : Option Char),
    (∀ c ∈ cs, c ≠ ESC) →
    EscClosed (shellOpenMarker sh) (shellCloseMarker sh) buf →
    generateAux sh cs (wrapEscapes (shellOpenMarker sh) (shellCloseMarker sh) buf) σ a l =
      Except.map (wrapEscapes (shellOpenMarker sh) (shellCloseMarker sh))
        (generateAux .any cs buf σ a l) := by
  intro n
  induction n with
  | zero =>
    intro cs hcs sh buf σ a l hesc hbuf
    have he : cs = [] := List.length_eq_zero.mp (Nat.le_zero.mp hcs)
    subst he
    cases l with
    | none => simp [genAux_nil_none, Except.map]
    | some b => simp [genAux_nil_some, Except.map, pushBrace_wrap sh b a σ.getLast? buf hbuf]
  | succ n ih =>
    intro cs hcs sh buf σ a l hesc hbuf
    cases cs with
    | nil =>
      cases l with
      | none => simp [genAux_nil_none, Except.map]
      | some b => simp [genAux_nil_some, Except.map, pushBrace_wrap sh b a σ.getLast? buf hbuf]
    | cons c cs2 =>
      have hlen : cs2.length ≤ n := by
        simp only [List.length_cons] at hcs; omega
      have hesc2 : ∀ x ∈ cs2, x ≠ ESC := fun x hx => hesc x (by simp [hx])
      have hescc : c ≠ ESC := hesc c (by simp)
      have key : ∀ (buf2 : List Char) (a2 : Option Section),
          EscClosed (shellOpenMarker sh) (shellCloseMarker sh) buf2 →
          generateAux sh (c :: cs2)
              (wrapEscapes (shellOpenMarker sh) (shellCloseMarker sh) buf2) σ a2 none =
            Except.map (wrapEscapes (shellOpenMarker sh) (shellCloseMarker sh))
              (generateAux .any (c :: cs2) buf2 σ a2 none) := by
        intro buf2 a2 hbuf2
        by_cases hc : c = OPEN_BRACE
        · subst hc
          rw [genAux_open, genAux_open]
          cases hrm : (readMeta cs2).1 with
          | error e => simp [Except.map]
          | ok sec =>
            have hlen2 : (readMeta cs2).2.length ≤ n :=
              le_trans (readMeta_rest_length_le cs2) hlen
            have hesc3 : ∀ x ∈ (readMeta cs2).2, x ≠ ESC :=
              fun x hx => hesc2 x (readMeta_rest_subset cs2 x hx)
            exact ih _ hlen2 sh buf2 (σ ++ [sec]) a2 (some OPEN_BRACE) hesc3 hbuf2
        · by_cases hc2 : c = CLOSE_BRACE
          · subst hc2
            rw [genAux_close, genAux_close]
            exact ih cs2 hlen sh buf2 σ.dropLast a2 (some CLOSE_BRACE) hesc2 hbuf2
          · rw [genAux_text sh c cs2 _ σ a2 hc hc2, genAux_text .any c cs2 buf2 σ a2 hc hc2]
            have hw : wrapEscapes (shellOpenMarker sh) (shellCloseMarker sh) buf2 ++ [c] =
                wrapEscapes (shellOpenMarker sh) (shellCloseMarker sh) (buf2 ++ [c]) := by
              rw [hbuf2 [c], wrapEscapes_cons_ne _ _ c [] hescc, wrapEscapes_nil]
            rw [hw]
            exact ih cs2 hlen sh (buf2 ++ [c]) σ a2 none hesc2
              (escClosed_append _ _ _ _ hbuf2 (escClosed_singleton _ _ c hescc))
      cases l with
      | none => exact key buf a hbuf
      | some b =>
        by_cases hbc : b = c
        · subst hbc
          rw [genAux_noflush, genAux_noflush]
          exact key buf a hbuf
        · rw [genAux_flush sh b c cs2 _ σ a hbc, genAux_flush .any b c cs2 buf σ a hbc,
            pushBrace_wrap sh b a σ.getLast? buf hbuf]
          exact key _ _ (escClosed_pushBrace_any _ _ _ _ _ _ hbuf)

/-! ## Claim C2 -/

/-- C2 (counterexample): for the template consisting of the raw escape
sequence `ESC [ 0 m` as literal text, `generate` under zsh returns the text
unwrapped, while the spec-side transform wraps it; the claimed identity
fails on templates whose literal text contains the escape character. -/
theorem claim_C2_counterexample :
    ¬ (generate [ESC, '[', '0', 'm'] .zsh =
      Except.map (wrapEscapes (shellOpenMarker .zsh) (shellCloseMarker .zsh))
        (generate [ESC, '[', '0', 'm'] .any)) := by
  simp +decide [generate, generateAux, wrapEscapes, shellOpenMarker, shellCloseMarker,
    Except.map, ESC, OPEN_BRACE, CLOSE_BRACE]

/-- C2 (amended): for every template containing no escape character, shell
mode is a pure textual wrap: `generate(T, Zsh)` is `generate(T, Any)` with
every individual SGR escape sequence wrapped in the zsh markers, and
likewise for bash; errors are untouched. -/
theorem claim_C2 (T : List Char) (h : ∀ c ∈ T, c ≠ ESC) :
    generate T .zsh =
      Except.map (wrapEscapes (shellOpenMarker .zsh) (shellCloseMarker .zsh))
        (generate T .any) ∧
    generate T .bash =
      Except.map (wrapEscapes (shellOpenMarker .bash) (shellCloseMarker .bash))
        (generate T .any) := by
  constructor
  · have h0 := genAux_wrap T.length T le_rfl .zsh [] [] none none h (escClosed_nil _ _)
    rwa [wrapEscapes_nil] at h0
  · have h0 := genAux_wrap T.length T le_rfl .bash [] [] none none h (escClosed_nil _ _)
    rwa [wrapEscapes_nil] at h0

/-- C2 (witness): the amended claim at the template `{0,1:xxx}`. -/
theorem claim_C2_witness :
    generate ("\x7b0,1:xxx\x7d".toList) .zsh =
      Except.map (wrapEscapes (shellOpenMarker .zsh) (shellCloseMarker .zsh))
        (generate ("\x7b0,1:xxx\x7d".toList) .any) ∧
    generate ("\x7b0,1:xxx\x7d".toList) .bash =
      Except.map (wrapEscapes (shellOpenMarker .bash) (shellCloseMarker .bash))
        (generate ("\x7b0,1:xxx\x7d".toList) .any) :=
  claim_C2 _ (by decide)

/-! ## The stack invariant of the scan loop -/

theorem stackTrace_nil (σ : List Section) : stackTrace [] σ = [σ] := by
  unfold stackTrace; rfl

theorem stackTrace_open (cs : List Char) (σ : List Section) :
    stackTrace (OPEN_BRACE :: cs) σ =
      (match (readMeta cs).1 with
       | .ok sec => σ :: stackTrace (readMeta cs).2 (σ ++ [sec])
       | .error _ => [σ]) := by
  conv => lhs; unfold stackTrace
  simp

theorem stackTrace_close (cs : List Char) (σ : List Section) :
    stackTrace (CLOSE_BRACE :: cs) σ = σ :: stackTrace cs σ.dropLast := by
  conv => lhs; unfold stackTrace
  simp [Ne.symm open_ne_close]

theorem stackTrace_other (c : Char) (cs : List Char) (σ : List Section)
    (h1 : c ≠ OPEN_BRACE) (h2 : c ≠ CLOSE_BRACE) :
    stackTrace (c :: cs) σ = σ :: stackTrace cs σ := by
  conv => lhs; unfold stackTrace
  simp [h1, h2]

theorem scanEvents_nil : scanEvents [] = [] := by
  unfold scanEvents; rfl

theorem scanEvents_open (cs : List Char) :
    scanEvents (OPEN_BRACE :: cs) =
      (match (readMeta cs).1 with
       | .ok sec => .push sec :: scanEvents (readMeta cs).2
       | .error _ => []) := by
  conv => lhs; unfold scanEvents
  simp

theorem scanEvents_close (cs : List Char) :
    scanEvents (CLOSE_BRACE :: cs) = .pop :: scanEvents cs := by
  conv => lhs; unfold scanEvents
  simp [Ne.symm open_ne_close]

theorem scanEvents_other (c : Char) (cs : List Char)
    (h1 : c ≠ OPEN_BRACE) (h2 : c ≠ CLOSE_BRACE) :
    scanEvents (c :: cs) = .text :: scanEvents cs := by
  conv => lhs; unfold scanEvents
  simp [h1, h2]

/-- The stack trace has one entry per scan event plus the final state. -/
theorem stackTrace_length : ∀ (n : Nat) (cs : List Char), cs.length ≤ n → ∀ (σ : List Section),
    (stackTrace cs σ).length = (scanEvents cs).length + 1 := by
  intro n
  induction n with
  | zero =>
    intro cs hcs σ
    have he : cs = [] := List.length_eq_zero.mp (Nat.le_zero.mp hcs)
    subst he
    simp [stackTrace_nil, scanEvents_nil]
  | succ n ih =>
    intro cs hcs σ
    cases cs with
    | nil => simp [stackTrace_nil, scanEvents_nil]
    | cons c cs2 =>
      have hlen : cs2.length ≤ n := by
        simp only [List.length_cons] at hcs; omega
      by_cases hc : c = OPEN_BRACE
      · subst hc
        rw [stackTrace_open, scanEvents_open]
        cases hrm : (readMeta cs2).1 with
        | error e => simp
        | ok sec =>
          have hlen2 : (readMeta cs2).2.length ≤ n :=
            le_trans (readMeta_rest_length_le cs2) hlen
          simp [ih _ hlen2 (σ ++ [sec])]
      · by_cases hc2 : c = CLOSE_BRACE
        · subst hc2
          rw [stackTrace_close, scanEvents_close]
          simp [ih cs2 hlen σ.dropLast]
        · rw [stackTrace_other c cs2 σ hc hc2, scanEvents_other c cs2 hc hc2]
          simp [ih cs2 hlen σ]

/-- Entry `i` of the stack trace is the fold of the stack updates over the
first `i` scan events. -/
theorem stackTrace_getD : ∀ (n : Nat) (cs : List Char), cs.length ≤ n →
    ∀ (σ : List Section) (i : Nat), i ≤ (scanEvents cs).length →
    (stackTrace cs σ).getD i [] = ((scanEvents cs).take i).foldl stackStep σ := by
  intro n
  induction n with
  | zero =>
    intro cs hcs σ i hi
    have he : cs = [] := List.length_eq_zero.mp (Nat.le_zero.mp hcs)
    subst he
    rw [scanEvents_nil] at hi
    simp at hi
    subst hi
    simp [stackTrace_nil, scanEvents_nil]
  | succ n ih =>
    intro cs hcs σ i hi
    cases cs with
    | nil =>
      rw [scanEvents_nil] at hi
      simp at hi
      subst hi
      simp [stackTrace_nil, scanEvents_nil]
    | cons c cs2 =>
      have hlen : cs2.length ≤ n := by
        simp only [List.length_cons] at hcs; omega
      by_cases hc : c = OPEN_BRACE
      · subst hc
        rw [stackTrace_open, scanEvents_open]
        rw [scanEvents_open] at hi
        cases hrm : (readMeta cs2).1 with
        | error e =>
          rw [hrm] at hi
          simp at hi
          subst hi
          simp
        | ok sec =>
          rw [hrm] at hi
          have hlen2 : (readMeta cs2).2.length ≤ n :=
            le_trans (readMeta_rest_length_le cs2) hlen
          cases i with
          | zero => simp
          | succ i =>
            simp only [List.length_cons] at hi
            simp only [List.getD_cons_succ, List.take_succ_cons, List.foldl_cons]
            exact ih _ hlen2 (stackStep σ (.push sec)) i (by omega)
      · by_cases hc2 : c = CLOSE_BRACE
        · subst hc2
          rw [stackTrace_close, scanEvents_close]
          rw [scanEvents_close] at hi
          cases i with
          | zero => simp
          | succ i =>
            simp only [List.length_cons] at hi
            simp only [List.getD_cons_succ, List.take_succ_cons, List.foldl_cons]
            exact ih cs2 hlen (stackStep σ .pop) i (by omega)
        · rw [stackTrace_other c cs2 σ hc hc2, scanEvents_other c cs2 hc hc2]
          rw [scanEvents_other c cs2 hc hc2] at hi
          cases i with
          | zero => simp
          | succ i =>
            simp only [List.length_cons] at hi
            simp only [List.getD_cons_succ, List.take_succ_cons, List.foldl_cons]
            exact ih cs2 hlen (stackStep σ .text) i (by omega)

/-- Folding the stack updates tracks exactly the unmatched-open counter. -/
theorem foldl_stackStep_length (evs : List ScanEvent) : ∀ (σ : List Section),
    (evs.foldl stackStep σ).length =
      evs.foldl (fun d e => match e with
        | .push _ => d + 1
        | .pop => d - 1
        | .text => d) σ.length := by
  induction evs with
  | nil => intro σ; rfl
  | cons e evs ih =>
    intro σ
    rw [List.foldl_cons, List.foldl_cons, ih (stackStep σ e)]
    cases e with
    | push s => simp [stackStep]
    | pop => simp [stackStep, List.length_dropLast]
    | text => rfl

theorem stackAfter_length (evs : List ScanEvent) :
    (stackAfter evs).length = unmatchedCount evs := by
  unfold stackAfter unmatchedCount
  exact foldl_stackStep_length evs []

theorem dropLast_reverse_getElem? (F : List Section) (k : Nat) :
    F.dropLast.reverse[k]? = F.reverse[k + 1]? := by
  rcases hF : F.reverse with _ | ⟨x, xs⟩
  · have he : F = [] := List.reverse_eq_nil_iff.mp hF
    subst he
    simp
  · have hF2 : F = xs.reverse ++ [x] := by
      have h0 := congrArg List.reverse hF
      rw [List.reverse_reverse] at h0
      simpa using h0
    rw [hF2, List.dropLast_concat]
    simp

/-- Walking the events backwards with a pending-pop counter finds exactly
the element `k` positions below the top of the folded stack. -/
theorem innermostAux_spec : ∀ (rev : List ScanEvent) (k : Nat),
    ((rev.reverse.foldl stackStep ([] : List Section)).reverse)[k]? = innermostAux rev k := by
  intro rev
  induction rev with
  | nil => intro k; simp [innermostAux]
  | cons e rev ih =>
    intro k
    have hsplit : (e :: rev).reverse = rev.reverse ++ [e] := by simp
    rw [hsplit, List.foldl_append]
    cases e with
    | push s =>
      simp only [List.foldl_cons, List.foldl_nil, stackStep]
      rw [List.reverse_append]
      cases k with
      | zero => simp [innermostAux]
      | succ k =>
        simp only [List.reverse_cons, List.reverse_nil, List.nil_append, List.cons_append,
          List.getElem?_cons_succ]
        rw [ih k]
        rfl
    | pop =>
      simp only [List.foldl_cons, List.foldl_nil, stackStep]
      rw [dropLast_reverse_getElem?, ih (k + 1)]
      rfl
    | text =>
      simp only [List.foldl_cons, List.foldl_nil, stackStep]
      rw [ih k]
      rfl

/-- The top of the folded stack is the innermost unmatched open. -/
theorem stackAfter_getLast (evs : List ScanEvent) :
    (stackAfter evs).getLast? = innermostUnmatched evs := by
  have h0 := innermostAux_spec evs.reverse 0
  rw [List.reverse_reverse] at h0
  unfold stackAfter innermostUnmatched
  rw [← h0, ← List.head?_reverse]
  cases (evs.foldl stackStep []).reverse <;> simp

/-! ## Claim C7 -/

/-- C7: at every point of the scan, the section stack's depth equals the
number of unmatched opening braces processed so far (`+1` per push, `-1` per
pop that had something to match), and its top is the section of the
innermost unmatched `{`, found independently by a backwards scan of the
events. -/
theorem claim_C7 (T : List Char) (i : Nat) (h : i < (stackTrace T []).length) :
    ((stackTrace T []).getD i []).length = unmatchedCount ((scanEvents T).take i) ∧
    ((stackTrace T []).getD i []).getLast? = innermostUnmatched ((scanEvents T).take i) := by
  have hi : i ≤ (scanEvents T).length := by
    have hl := stackTrace_length T.length T le_rfl []
    omega
  rw [stackTrace_getD T.length T le_rfl [] i hi]
  exact ⟨stackAfter_length _, stackAfter_getLast _⟩

/-- C7 (witness): the invariant at step 2 of the scan of `x}` — after the
text and the unmatched pop the stack is empty, matching counter 0 and no
innermost unmatched open. -/
theorem claim_C7_witness :
    ((stackTrace ("x\x7d".toList) []).getD 2 []).length =
      unmatchedCount ((scanEvents ("x\x7d".toList)).take 2) ∧
    ((stackTrace ("x\x7d".toList) []).getD 2 []).getLast? =
      innermostUnmatched ((scanEvents ("x\x7d".toList)).take 2) :=
  claim_C7 ("x\x7d".toList) 2 (by
    simp +decide [stackTrace, readMeta, OPEN_BRACE, CLOSE_BRACE])

end Promptgen
